import Mathlib

/-!
# Kubewatcher: a verification development for `main.go`

The program discovers the API resources of a cluster, lets the user pick one
(or takes it from `KUBEWATCHER_RESOURCE`), subscribes to its update
notifications and prints a colourised structural diff for every update.

This file embeds `colorizeDiff`, the discovery loop of `main` and the control
flow of `main` (as the sequence of external interactions a run performs), and
proves properties of them.

Go strings are immutable byte sequences; they are embedded as lists of bytes.
The library functions `main.go` calls (`strings.Split`, `strings.Join`,
`strings.HasPrefix`, `strings.Contains`, `sort.Strings`, `fmt.Sprintf`,
`schema.ParseResourceArg`) are embedded by their documented behaviour.
-/

namespace Kubewatcher

/-! ## Go strings -/

/-- One byte of a Go string. -/
abbrev Byte := Fin 256

/-- A Go `string`: a finite sequence of bytes. -/
abbrev GoString := List Byte

/-- The Go string literal with the given text: its UTF-8 encoding. -/
def lit (s : String) : GoString :=
  (s.data.flatMap String.utf8EncodeChar).map (fun b => b.val)

/-- The byte `'\n'`. -/
def newline : Byte := 10

/-- The byte `'.'`. -/
def dot : Byte := 46

/-- The byte `'/'`. -/
def slash : Byte := 47

/-- The call `strings.Split(s, sep)` for a separator `sep` of one byte (the only kind
`main.go` uses: `"/"` and `"\n"`): the pieces of `s` between the occurrences
of `sep`, in order. The result always has at least one piece;
`strings.Split("", sep)` is `[""]`. -/
def stringsSplit : GoString → Byte → List GoString
  | [], _ => [[]]
  | c :: cs, sep =>
    if c = sep then [] :: stringsSplit cs sep
    else
      match stringsSplit cs sep with
      | [] => [[c]]
      | p :: ps => (c :: p) :: ps

/-- The call `strings.Join(elems, sep)`: the elements concatenated, with `sep` between
every two neighbours. -/
def stringsJoin : List GoString → GoString → GoString
  | [], _ => []
  | [a], _ => a
  | a :: b :: rest, sep => a ++ sep ++ stringsJoin (b :: rest) sep

/-- The call `strings.HasPrefix(s, prefix)`: whether `s` begins with `prefix`. -/
def stringsHasPrefix : GoString → GoString → Bool
  | _, [] => true
  | [], _ :: _ => false
  | c :: cs, p :: ps => c = p && stringsHasPrefix cs ps

/-- The call `strings.Contains(s, substr)` for a `substr` of one byte. -/
def stringsContains : GoString → Byte → Bool
  | [], _ => false
  | c :: cs, b => c = b || stringsContains cs b

/-- The call `strings.Count(s, substr)` for a `substr` of one byte. -/
def stringsCount : GoString → Byte → Nat
  | [], _ => 0
  | c :: cs, b => (if c = b then 1 else 0) + stringsCount cs b

/-! ## Diff colouring -/

/-- What `aurora.X(arg).String()` does to a string argument for one colour `X`:
it puts the colour's escape sequence before the text and the reset sequence
after it. The two sequences are those of the `aurora` library, which is not
part of this repository. -/
structure Style where
  start : GoString
  stop : GoString
deriving DecidableEq

/-- The text wrapped in the style's marker. -/
def Style.render (st : Style) (text : GoString) : GoString :=
  st.start ++ text ++ st.stop

/-- The two colours `colorizeDiff` uses: `aurora.Green` and `aurora.Red`. -/
structure Aurora where
  Green : Style
  Red : Style
deriving DecidableEq

/-- The ANSI escape sequences of a colour terminal: `ESC[32m` for green,
`ESC[31m` for red, `ESC[0m` to reset. -/
def ansi : Aurora where
  Green := ⟨[27, 91, 51, 50, 109], [27, 91, 48, 109]⟩
  Red := ⟨[27, 91, 51, 49, 109], [27, 91, 48, 109]⟩

/-- The body of the loop of `colorizeDiff`: the `switch` on one line. -/
def colorizeLine (au : Aurora) (line : GoString) : GoString :=
  if stringsHasPrefix line (lit "+") then au.Green.render line
  else if stringsHasPrefix line (lit "-") then au.Red.render line
  else line

/-- The loop of `colorizeDiff`: `coloredLines` after the lines given have been
visited, starting from the slice `coloredLines` given. -/
def colorizeLoop (au : Aurora) (coloredLines : List GoString) (lines : List GoString) :
    List GoString :=
  lines.foldl (fun acc line => acc ++ [colorizeLine au line]) coloredLines

/-- The function `colorizeDiff(diff)` of `main.go`. -/
def colorizeDiff (au : Aurora) (diff : GoString) : GoString :=
  let lines := stringsSplit diff newline
  let coloredLines := colorizeLoop au [] lines
  stringsJoin coloredLines [newline]

/-! ## Sorting -/

/-- The Go comparison `a < b` of two strings: byte-wise lexicographic order, a
proper prefix being smaller. -/
def strLess : GoString → GoString → Bool
  | [], [] => false
  | [], _ :: _ => true
  | _ :: _, [] => false
  | a :: as, b :: bs => if a < b then true else if b < a then false else strLess as bs

/-- Insertion of a string into a sorted slice, after the elements not greater
than it. -/
def insertString (x : GoString) : List GoString → List GoString
  | [] => [x]
  | y :: ys => if strLess x y then x :: y :: ys else y :: insertString x ys

/-- The call `sort.Strings(x)`: the slice sorted in increasing order. The algorithm of
the Go library is not part of this repository; equal strings being
indistinguishable, the sorted arrangement of a slice is unique
(`sortStrings_unique`), and it is computed here by insertion. -/
def sortStrings (x : List GoString) : List GoString :=
  x.foldr insertString []

/-- A slice of strings in non-decreasing order: no element is greater than a
later one. -/
def StringsSorted (x : List GoString) : Prop :=
  x.Pairwise (fun a b => strLess b a = false)

instance (x : List GoString) : Decidable (StringsSorted x) := by
  unfold StringsSorted; infer_instance

/-! ## External interactions of a run -/

/-- The type `schema.GroupVersionResource`. -/
structure GroupVersionResource where
  Group : GoString
  Version : GoString
  Resource : GoString
deriving DecidableEq

/-- The call `strings.Cut(s, sep)` for a `sep` of one byte: the text before and after
the first occurrence of `sep`, or `none` when there is none. -/
def stringsCut : GoString → Byte → Option (GoString × GoString)
  | [], _ => none
  | c :: cs, sep =>
    if c = sep then some ([], cs)
    else
      match stringsCut cs sep with
      | none => none
      | some (before, after) => some (c :: before, after)

/-- The call `strings.SplitN(s, sep, n)` for a `sep` of one byte and `n ≥ 0`: at most
`n` pieces, the last one being the unsplit remainder. -/
def stringsSplitN (s : GoString) (sep : Byte) : Nat → List GoString
  | 0 => []
  | 1 => [s]
  | n + 2 =>
    match stringsCut s sep with
    | none => [s]
    | some (before, after) => before :: stringsSplitN after sep (n + 1)

/-- The first result of `schema.ParseResourceArg(arg)` (the only one `main`
uses): with at least two `"."` in `arg`, the pointer to the
group-version-resource made of the three pieces of
`strings.SplitN(arg, ".", 3)`; otherwise `nil`. -/
def ParseResourceArg (arg : GoString) : Option GroupVersionResource :=
  if stringsCount arg dot ≥ 2 then
    let s := stringsSplitN arg dot 3
    some { Group := s.getD 2 [], Version := s.getD 1 [], Resource := s.getD 0 [] }
  else none

/-- What a run of `main` does to the outside: its calls to the cluster client
libraries, to the prompt and to the logger, and the dereference of a nil
pointer, which ends the run. The calls `ctrl.SetLogger`, `WithName`,
`os.Getenv` and `i.Informer()` are not recorded. -/
inductive Event where
  | buildConfigFromFlags
  | newDiscoveryClientForConfig
  | serverGroupsAndResources
  | askOne (options : List GoString)
  | newForConfig
  | newInformerFactory
  | parseResourceArg (arg : GoString)
  | nilDereference
  | forResource (gvr : GroupVersionResource)
  | addEventHandler
  | setupSignalHandler
  | run
  | logError (msg : GoString)
  | logInfo (msg : GoString)
deriving DecidableEq

/-! ## Discovery -/

/-- The type `metav1.APIResource`, of which `main` reads the name only. -/
structure APIResource where
  Name : GoString
deriving DecidableEq

/-- The type `metav1.APIResourceList`: a group-version and its resources. -/
structure APIResourceList where
  GroupVersion : GoString
  APIResources : List APIResource
deriving DecidableEq

/-- The call `fmt.Sprintf("%s.%s.%s", a, b, c)` on three strings. -/
def sprintfDots (a b c : GoString) : GoString :=
  a ++ [dot] ++ b ++ [dot] ++ c

/-- The `switch len(split)` of the discovery loop: the values of
`resourceGroup` and `resourceVersion` after it. -/
def groupAndVersion (split : List GoString) : GoString × GoString :=
  match split with
  | [v] => ([], v)
  | [g, v] => (g, v)
  | _ => ([], [])

/-- What the `switch len(split)` logs: something in the `default` case only. -/
def switchLog (split : List GoString) (groupVersion : GoString) : List Event :=
  match split with
  | [_] => []
  | [_, _] => []
  | _ => [Event.logError (lit "unknown format: " ++ groupVersion)]

/-- The inner loop over `group.APIResources`: `choices` afterwards. -/
def resourceLoop (resourceVersion resourceGroup : GoString) (choices : List GoString)
    (resources : List APIResource) : List GoString :=
  resources.foldl
    (fun choices resource =>
      if stringsContains resource.Name slash then choices
      else choices ++ [sprintfDots resource.Name resourceVersion resourceGroup])
    choices

/-- The loop over `list` in `main`: `choices` afterwards, and what was
logged. -/
def discoveryLoop (list : List APIResourceList) : List GoString × List Event :=
  list.foldl
    (fun st group =>
      let split := stringsSplit group.GroupVersion slash
      let gv := groupAndVersion split
      (resourceLoop gv.2 gv.1 st.1 group.APIResources,
        st.2 ++ switchLog split group.GroupVersion))
    ([], [])

/-- The identifiers of the resources of one group, in the order of the
resources: the resource names with a `"/"` contribute nothing. -/
def groupIdentifiers (group : APIResourceList) : List GoString :=
  (group.APIResources.filter (fun r => !stringsContains r.Name slash)).map
    (fun r => sprintfDots r.Name
      (groupAndVersion (stringsSplit group.GroupVersion slash)).2
      (groupAndVersion (stringsSplit group.GroupVersion slash)).1)

/-- The options of the prompt: `choices` after `sort.Strings(choices)`. -/
def choiceList (list : List APIResourceList) : List GoString :=
  sortStrings (discoveryLoop list).1

/-- The discovery result used in the examples: `apps/v1` with `deployments`
and `deployments/status`, the core group `v1` with `pods`, and a
group-version with two `"/"`. -/
def exampleList : List APIResourceList :=
  [{ GroupVersion := lit "apps/v1",
     APIResources := [{ Name := lit "deployments" }, { Name := lit "deployments/status" }] },
   { GroupVersion := lit "v1", APIResources := [{ Name := lit "pods" }] },
   { GroupVersion := lit "a/b/c", APIResources := [{ Name := lit "x" }] }]

/-! ## The run of `main` -/

/-- The outside of one run: what each call that can fail or that reads the
environment returns. -/
structure World where
  /-- `clientcmd.BuildConfigFromFlags` returns an error. -/
  buildConfigErr : Bool
  /-- The value of the environment variable `KUBEWATCHER_RESOURCE`. -/
  KUBEWATCHER_RESOURCE : GoString
  /-- `discovery.NewDiscoveryClientForConfig` returns an error. -/
  discoveryClientErr : Bool
  /-- The list returned by `ServerGroupsAndResources`. -/
  list : List APIResourceList
  /-- `ServerGroupsAndResources` returns an error. -/
  discoveryErr : Bool
  /-- The outcome of `survey.AskOne` on the options given: `none` for an
  error, otherwise the string written to `target`. -/
  askOne : List GoString → Option GoString
  /-- `dynamic.NewForConfig` returns an error. -/
  dynamicClientErr : Bool

/-- Lines 86 to 104 of `main`, with the value of `target` reached. -/
def watch (w : World) (target : GoString) : List Event :=
  Event.newForConfig ::
  (if w.dynamicClientErr then [Event.logError (lit "unable to build K8S client")] else []) ++
  Event.newInformerFactory ::
  Event.parseResourceArg target ::
  match ParseResourceArg target with
  | none => [Event.nilDereference]
  | some gvr =>
    [Event.forResource gvr, Event.addEventHandler, Event.setupSignalHandler, Event.run]

/-- The function `main`: the sequence of its external interactions, in order.
A `return` ends the sequence; so does the dereference of a nil pointer. -/
def main (w : World) : List Event :=
  Event.buildConfigFromFlags ::
  if w.buildConfigErr then [Event.logError (lit "unable to build K8S RestConfig")]
  else if w.KUBEWATCHER_RESOURCE = [] then
    Event.newDiscoveryClientForConfig ::
    if w.discoveryClientErr then
      [Event.logError (lit "unable to build K8S discovery client")]
    else
      Event.serverGroupsAndResources ::
      (if w.discoveryErr then [Event.logError (lit "error discovering APIs")] else []) ++
      if w.list.length = 0 then [Event.logInfo (lit "no API resources detected")]
      else
        let st := discoveryLoop w.list
        let choices := sortStrings st.1
        st.2 ++ Event.askOne choices ::
        match w.askOne choices with
        | none => [Event.logError (lit "error choosing resource")]
        | some target => watch w target
  else watch w w.KUBEWATCHER_RESOURCE

/-! ## The event handlers -/

/-- The call `fmt.Println(s)` for one string: the bytes written to standard output. -/
def fmtPrintln (s : GoString) : GoString :=
  s ++ [newline]

/-- The `AddFunc` handler: what it writes to standard output. -/
def AddFunc {Obj : Type} (_obj : Obj) : GoString := []

/-- The `DeleteFunc` handler: what it writes to standard output. -/
def DeleteFunc {Obj : Type} (_obj : Obj) : GoString := []

/-- The `UpdateFunc` handler: what it writes to standard output. `cmpDiff` is
`cmp.Diff` of the `go-cmp` library. -/
def UpdateFunc {Obj : Type} (au : Aurora) (cmpDiff : Obj → Obj → GoString)
    (oldObj newObj : Obj) : GoString :=
  fmtPrintln (colorizeDiff au (cmpDiff oldObj newObj))

/-- A notification of the informer. -/
inductive Notification (Obj : Type) where
  | add (obj : Obj)
  | update (oldObj newObj : Obj)
  | delete (obj : Obj)

/-- The handler registered for a notification, run on it. -/
def handle {Obj : Type} (au : Aurora) (cmpDiff : Obj → Obj → GoString) :
    Notification Obj → GoString
  | .add obj => AddFunc obj
  | .update oldObj newObj => UpdateFunc au cmpDiff oldObj newObj
  | .delete obj => DeleteFunc obj

/-- Standard output after the notifications given were delivered in order. -/
def stdoutAfter {Obj : Type} (au : Aurora) (cmpDiff : Obj → Obj → GoString)
    (ns : List (Notification Obj)) : GoString :=
  ns.flatMap (handle au cmpDiff)

/-! ## The prefix of a run, and the worlds used as examples -/

/-- The events of a run up to the prompt, when discovery returns a list that is
not empty. -/
def beforePrompt (w : World) : List Event :=
  [Event.buildConfigFromFlags, Event.newDiscoveryClientForConfig,
    Event.serverGroupsAndResources] ++
  (if w.discoveryErr then [Event.logError (lit "error discovering APIs")] else []) ++
  (discoveryLoop w.list).2

/-- A world in which everything succeeds and `KUBEWATCHER_RESOURCE` is
`deployments.v1.apps`. -/
def presetWorld : World where
  buildConfigErr := false
  KUBEWATCHER_RESOURCE := lit "deployments.v1.apps"
  discoveryClientErr := false
  list := exampleList
  discoveryErr := false
  askOne := fun options => options.head?
  dynamicClientErr := false

/-- A world in which everything succeeds, `KUBEWATCHER_RESOURCE` is empty and
the first option of the prompt is selected. -/
def promptWorld : World where
  buildConfigErr := false
  KUBEWATCHER_RESOURCE := lit ""
  discoveryClientErr := false
  list := exampleList
  discoveryErr := false
  askOne := fun options => options.head?
  dynamicClientErr := false

/-- A world in which everything succeeds and `KUBEWATCHER_RESOURCE` is `pods`,
which has no `"."`. -/
def podsWorld : World where
  buildConfigErr := false
  KUBEWATCHER_RESOURCE := lit "pods"
  discoveryClientErr := false
  list := exampleList
  discoveryErr := false
  askOne := fun options => options.head?
  dynamicClientErr := false

/-- A world in which discovery reports an error but returns a list, the first
option of the prompt is selected, and the dynamic client cannot be built. -/
def failingWorld : World where
  buildConfigErr := false
  KUBEWATCHER_RESOURCE := lit ""
  discoveryClientErr := false
  list := [{ GroupVersion := lit "apps/v1", APIResources := [{ Name := lit "deployments" }] }]
  discoveryErr := true
  askOne := fun options => options.head?
  dynamicClientErr := true

/-! ## Lemmas on splitting and joining -/

theorem stringsSplit_ne_nil (s : GoString) (sep : Byte) : stringsSplit s sep ≠ [] := by
  induction s with
  | nil => simp [stringsSplit]
  | cons c cs ih =>
    unfold stringsSplit
    split
    · simp
    · split <;> simp

theorem stringsContains_iff_mem (s : GoString) (b : Byte) :
    stringsContains s b = true ↔ b ∈ s := by
  induction s with
  | nil => simp [stringsContains]
  | cons c cs ih =>
    simp only [stringsContains, Bool.or_eq_true, decide_eq_true_eq, ih, List.mem_cons]
    constructor
    · rintro (h | h)
      · exact Or.inl h.symm
      · exact Or.inr h
    · rintro (h | h)
      · exact Or.inl h.symm
      · exact Or.inr h

/-- No piece of a split contains the separator. -/
theorem stringsSplit_not_mem (s : GoString) (sep : Byte) :
    ∀ p ∈ stringsSplit s sep, sep ∉ p := by
  induction s with
  | nil => simp [stringsSplit]
  | cons c cs ih =>
    intro p hp
    unfold stringsSplit at hp
    split at hp
    · rcases List.mem_cons.mp hp with h | h
      · simp [h]
      · exact ih p h
    · rename_i hc
      split at hp
      · rename_i hnil
        exact absurd hnil (stringsSplit_ne_nil cs sep)
      · rename_i q qs hq
        rw [hq] at ih
        rcases List.mem_cons.mp hp with h | h
        · subst h
          intro hmem
          rcases List.mem_cons.mp hmem with h1 | h1
          · exact hc h1.symm
          · exact ih q (List.mem_cons_self _ _) h1
        · exact ih p (List.mem_cons_of_mem _ h)

/-- Joining the pieces of a split gives the string back. -/
theorem stringsJoin_stringsSplit (s : GoString) (sep : Byte) :
    stringsJoin (stringsSplit s sep) [sep] = s := by
  induction s with
  | nil => simp [stringsSplit, stringsJoin]
  | cons c cs ih =>
    unfold stringsSplit
    split
    · rename_i hc
      cases hs : stringsSplit cs sep with
      | nil => exact absurd hs (stringsSplit_ne_nil cs sep)
      | cons q qs =>
        rw [hs] at ih
        simp [stringsJoin, ih, hc]
    · cases hs : stringsSplit cs sep with
      | nil => exact absurd hs (stringsSplit_ne_nil cs sep)
      | cons q qs =>
        rw [hs] at ih
        cases qs with
        | nil =>
          simp only [stringsJoin] at ih ⊢
          rw [ih]
        | cons r rs =>
          simp only [stringsJoin] at ih ⊢
          rw [← ih]
          simp

/-- A string without the separator is a single piece. -/
theorem stringsSplit_of_not_mem (s : GoString) (sep : Byte) (h : sep ∉ s) :
    stringsSplit s sep = [s] := by
  induction s with
  | nil => simp [stringsSplit]
  | cons c cs ih =>
    have hc : c ≠ sep := fun e => h (by simp [e])
    have hcs : sep ∉ cs := fun e => h (List.mem_cons_of_mem _ e)
    unfold stringsSplit
    rw [if_neg hc, ih hcs]

/-- Splitting `a ++ sep ++ rest` when `a` has no separator. -/
theorem stringsSplit_append (a rest : GoString) (sep : Byte) (h : sep ∉ a) :
    stringsSplit (a ++ sep :: rest) sep = a :: stringsSplit rest sep := by
  induction a with
  | nil => simp [stringsSplit]
  | cons c cs ih =>
    have hc : c ≠ sep := fun e => h (by simp [e])
    have hcs : sep ∉ cs := fun e => h (List.mem_cons_of_mem _ e)
    simp only [List.cons_append]
    conv_lhs => unfold stringsSplit
    rw [if_neg hc, ih hcs]

/-- Splitting a join of separator-free pieces gives the pieces back. -/
theorem stringsSplit_stringsJoin (ls : List GoString) (sep : Byte) (hne : ls ≠ [])
    (h : ∀ p ∈ ls, sep ∉ p) : stringsSplit (stringsJoin ls [sep]) sep = ls := by
  induction ls with
  | nil => exact absurd rfl hne
  | cons a rest ih =>
    cases rest with
    | nil =>
      simp only [stringsJoin]
      exact stringsSplit_of_not_mem a sep (h a (List.mem_cons_self _ _))
    | cons b rest =>
      simp only [stringsJoin, List.append_assoc, List.singleton_append]
      rw [stringsSplit_append a _ sep (h a (List.mem_cons_self _ _))]
      rw [ih (by simp) (fun p hp => h p (List.mem_cons_of_mem _ hp))]

theorem colorizeLoop_eq (au : Aurora) (acc lines : List GoString) :
    colorizeLoop au acc lines = acc ++ lines.map (colorizeLine au) := by
  induction lines generalizing acc with
  | nil => simp [colorizeLoop]
  | cons l ls ih =>
    have := ih (acc ++ [colorizeLine au l])
    simp only [colorizeLoop, List.foldl_cons] at this ⊢
    rw [this]
    simp

theorem colorizeDiff_eq (au : Aurora) (diff : GoString) :
    colorizeDiff au diff =
      stringsJoin ((stringsSplit diff newline).map (colorizeLine au)) [newline] := by
  simp [colorizeDiff, colorizeLoop_eq]

/-! ## Lemmas on the string order -/

/-- Two strings neither of which is smaller are equal. -/
theorem strLess_antisymm : ∀ (a b : GoString),
    strLess a b = false → strLess b a = false → a = b
  | [], [], _, _ => rfl
  | [], _ :: _, h, _ => by simp [strLess] at h
  | _ :: _, [], _, h => by simp [strLess] at h
  | x :: xs, y :: ys, h1, h2 => by
    simp only [strLess] at h1 h2
    by_cases hxy : x < y
    · simp [hxy] at h1
    · by_cases hyx : y < x
      · simp [hyx] at h2
      · simp only [hxy, hyx, if_false] at h1 h2
        have hx : x = y := le_antisymm (not_lt.mp hyx) (not_lt.mp hxy)
        rw [hx, strLess_antisymm xs ys h1 h2]

/-- The order is total: of two strings, one is not greater than the other. -/
theorem strLess_asymm : ∀ (a b : GoString), strLess a b = true → strLess b a = false
  | [], [], h => by simp [strLess] at h
  | [], _ :: _, _ => by simp [strLess]
  | _ :: _, [], h => by simp [strLess] at h
  | x :: xs, y :: ys, h => by
    simp only [strLess] at h ⊢
    by_cases hxy : x < y
    · have hyx : ¬ y < x := not_lt.mpr (le_of_lt hxy)
      simp [hxy, hyx]
    · by_cases hyx : y < x
      · simp [hxy, hyx] at h
      · simp only [hxy, hyx, if_false] at h ⊢
        exact strLess_asymm xs ys h

/-- Non-decreasing order is transitive. -/
theorem strLess_false_trans : ∀ (a b c : GoString),
    strLess b a = false → strLess c b = false → strLess c a = false
  | [], _, [], _, _ => rfl
  | [], _, _ :: _, _, _ => by simp [strLess]
  | _ :: _, [], _, h, _ => by simp [strLess] at h
  | _ :: _, _ :: _, [], _, h => by simp [strLess] at h
  | x :: xs, y :: ys, z :: zs, h1, h2 => by
    simp only [strLess] at h1 h2 ⊢
    by_cases hyx : y < x
    · simp [hyx] at h1
    · by_cases hzy : z < y
      · simp [hzy] at h2
      · by_cases hxy : x < y
        · have hzx : ¬ z < x := fun hh => hzy (lt_trans hh hxy)
          by_cases hxz : x < z
          · simp [hzx, hxz]
          · have : x = z := le_antisymm (not_lt.mp hzx) (not_lt.mp hxz)
            subst this
            exact absurd hxy (by simpa using hzy)
        · have hxy' : x = y := le_antisymm (not_lt.mp hyx) (not_lt.mp hxy)
          subst hxy'
          by_cases hxz : x < z
          · simp [hzy, hxz]
          · simp only [hyx, hzy, hxz, if_false] at h1 h2 ⊢
            exact strLess_false_trans xs ys zs h1 h2

/-! ## Lemmas on sorting -/

theorem insertString_perm (x : GoString) (l : List GoString) :
    (insertString x l).Perm (x :: l) := by
  induction l with
  | nil => simp [insertString]
  | cons y ys ih =>
    unfold insertString
    split
    · exact List.Perm.refl _
    · exact (List.Perm.cons y ih).trans (List.Perm.swap x y ys)

theorem sortStrings_perm (l : List GoString) : (sortStrings l).Perm l := by
  induction l with
  | nil => simp [sortStrings]
  | cons x xs ih =>
    have : sortStrings (x :: xs) = insertString x (sortStrings xs) := rfl
    rw [this]
    exact (insertString_perm x _).trans (List.Perm.cons x ih)

theorem insertString_sorted (x : GoString) (l : List GoString) (h : StringsSorted l) :
    StringsSorted (insertString x l) := by
  induction l with
  | nil => simp [insertString, StringsSorted]
  | cons y ys ih =>
    unfold StringsSorted at h ih ⊢
    rw [List.pairwise_cons] at h
    unfold insertString
    by_cases hxy : strLess x y = true
    · rw [if_pos hxy]
      have hyx := strLess_asymm x y hxy
      refine List.pairwise_cons.mpr ⟨?_, List.pairwise_cons.mpr h⟩
      intro b hb
      rcases List.mem_cons.mp hb with hb | hb
      · rw [hb]; exact hyx
      · exact strLess_false_trans x y b hyx (h.1 b hb)
    · rw [if_neg hxy]
      refine List.pairwise_cons.mpr ⟨?_, ih h.2⟩
      intro b hb
      rcases List.mem_cons.mp ((insertString_perm x ys).subset hb) with hb | hb
      · rw [hb]; simpa using hxy
      · exact h.1 b hb

theorem sortStrings_sorted (l : List GoString) : StringsSorted (sortStrings l) := by
  induction l with
  | nil => simp [sortStrings, StringsSorted]
  | cons x xs ih => exact insertString_sorted x _ ih

/-- Two sorted arrangements of the same strings are equal. -/
theorem sorted_perm_unique : ∀ (l l' : List GoString),
    l.Perm l' → StringsSorted l → StringsSorted l' → l = l'
  | [], l', hp, _, _ => (List.Perm.nil_eq hp)
  | x :: xs, [], hp, _, _ => by simp at hp
  | x :: xs, y :: ys, hp, h1, h2 => by
    unfold StringsSorted at h1 h2
    rw [List.pairwise_cons] at h1 h2
    have hx : x ∈ y :: ys := hp.subset (List.mem_cons_self _ _)
    have hy : y ∈ x :: xs := hp.symm.subset (List.mem_cons_self _ _)
    have hxy : x = y := by
      rcases List.mem_cons.mp hx with hx | hx
      · exact hx
      · rcases List.mem_cons.mp hy with hy | hy
        · exact hy.symm
        · exact strLess_antisymm x y (h2.1 x hx) (h1.1 y hy)
    subst hxy
    rw [sorted_perm_unique xs ys (List.Perm.cons_inv hp) h1.2 h2.2]

/-- The result of `sortStrings` is the only sorted arrangement of its input. -/
theorem sortStrings_unique (l l' : List GoString) (hp : l'.Perm l) (hs : StringsSorted l') :
    l' = sortStrings l :=
  sorted_perm_unique l' (sortStrings l) (hp.trans (sortStrings_perm l).symm) hs
    (sortStrings_sorted l)

/-! ## Lemmas on the discovery loop -/

/-- The identifiers one group contributes to `choices`. -/
theorem resourceLoop_eq (v g : GoString) (choices : List GoString) (rs : List APIResource) :
    resourceLoop v g choices rs =
      choices ++ (rs.filter (fun r => !stringsContains r.Name slash)).map
        (fun r => sprintfDots r.Name v g) := by
  induction rs generalizing choices with
  | nil => simp [resourceLoop]
  | cons r rs ih =>
    have hstep : resourceLoop v g choices (r :: rs) =
        resourceLoop v g
          (if stringsContains r.Name slash then choices
            else choices ++ [sprintfDots r.Name v g]) rs := rfl
    rw [hstep, ih]
    by_cases h : stringsContains r.Name slash = true
    · simp [h]
    · simp [h]

theorem discoveryLoop_fst_aux (list : List APIResourceList) (st : List GoString × List Event) :
    (list.foldl
      (fun st group =>
        let split := stringsSplit group.GroupVersion slash
        let gv := groupAndVersion split
        (resourceLoop gv.2 gv.1 st.1 group.APIResources,
          st.2 ++ switchLog split group.GroupVersion)) st).1 =
      st.1 ++ list.flatMap groupIdentifiers := by
  induction list generalizing st with
  | nil => simp
  | cons g gs ih =>
    rw [List.foldl_cons, ih]
    simp [resourceLoop_eq, groupIdentifiers]

theorem discoveryLoop_fst (list : List APIResourceList) :
    (discoveryLoop list).1 = list.flatMap groupIdentifiers := by
  unfold discoveryLoop
  rw [discoveryLoop_fst_aux]
  simp

theorem choiceList_perm (list : List APIResourceList) :
    (choiceList list).Perm (list.flatMap groupIdentifiers) := by
  unfold choiceList
  rw [← discoveryLoop_fst]
  exact sortStrings_perm _

theorem mem_choiceList (list : List APIResourceList) (c : GoString) :
    c ∈ choiceList list ↔
      ∃ group ∈ list, ∃ r ∈ group.APIResources, stringsContains r.Name slash = false ∧
        c = sprintfDots r.Name
          (groupAndVersion (stringsSplit group.GroupVersion slash)).2
          (groupAndVersion (stringsSplit group.GroupVersion slash)).1 := by
  rw [(choiceList_perm list).mem_iff]
  simp only [List.mem_flatMap, groupIdentifiers, List.mem_map, List.mem_filter,
    Bool.not_eq_true']
  constructor
  · rintro ⟨g, hg, r, ⟨hr, hs⟩, rfl⟩
    exact ⟨g, hg, r, hr, hs, rfl⟩
  · rintro ⟨g, hg, r, hr, hs, rfl⟩
    exact ⟨g, hg, r, ⟨hr, hs⟩, rfl⟩

theorem stringsSplit_length (s : GoString) (sep : Byte) :
    (stringsSplit s sep).length = stringsCount s sep + 1 := by
  induction s with
  | nil => simp [stringsSplit, stringsCount]
  | cons c cs ih =>
    unfold stringsSplit stringsCount
    by_cases hc : c = sep
    · simp [hc, ih]; omega
    · rw [if_neg hc, if_neg hc]
      cases hs : stringsSplit cs sep with
      | nil => exact absurd hs (stringsSplit_ne_nil cs sep)
      | cons q qs =>
        rw [hs] at ih
        simp at ih ⊢
        omega

theorem stringsCount_append (a b : GoString) (sep : Byte) :
    stringsCount (a ++ b) sep = stringsCount a sep + stringsCount b sep := by
  induction a with
  | nil => simp [stringsCount]
  | cons c cs ih => simp [stringsCount, ih]; omega

/-- The pieces of the `switch` contain no `"/"`. -/
theorem groupAndVersion_not_mem (s : GoString) :
    slash ∉ (groupAndVersion (stringsSplit s slash)).1 ∧
      slash ∉ (groupAndVersion (stringsSplit s slash)).2 := by
  have h := stringsSplit_not_mem s slash
  generalize stringsSplit s slash = ps at h
  match ps, h with
  | [], _ => simp [groupAndVersion]
  | [v], h => exact ⟨by simp [groupAndVersion], h v (by simp)⟩
  | [g, v], h => exact ⟨h g (by simp), h v (by simp)⟩
  | _ :: _ :: _ :: _, _ => simp [groupAndVersion]

/-! ## Lemmas on `colorizeDiff` -/

/-- A coloured line has no line break when the line and the markers have none. -/
theorem colorizeLine_not_mem (au : Aurora) (line : GoString)
    (hg1 : newline ∉ au.Green.start) (hg2 : newline ∉ au.Green.stop)
    (hr1 : newline ∉ au.Red.start) (hr2 : newline ∉ au.Red.stop)
    (hl : newline ∉ line) : newline ∉ colorizeLine au line := by
  unfold colorizeLine Style.render
  split
  · simp [hg1, hg2, hl]
  · split
    · simp [hr1, hr2, hl]
    · exact hl

/-- The lines of the output are the coloured lines of the input. -/
theorem stringsSplit_colorizeDiff (au : Aurora) (d : GoString)
    (hg1 : newline ∉ au.Green.start) (hg2 : newline ∉ au.Green.stop)
    (hr1 : newline ∉ au.Red.start) (hr2 : newline ∉ au.Red.stop) :
    stringsSplit (colorizeDiff au d) newline =
      (stringsSplit d newline).map (colorizeLine au) := by
  rw [colorizeDiff_eq]
  apply stringsSplit_stringsJoin
  · simpa using stringsSplit_ne_nil d newline
  · intro p hp
    rcases List.mem_map.mp hp with ⟨l, hl, rfl⟩
    exact colorizeLine_not_mem au l hg1 hg2 hr1 hr2 (stringsSplit_not_mem d newline l hl)

theorem stringsContains_eq_false (s : GoString) (b : Byte) :
    stringsContains s b = false ↔ b ∉ s := by
  rw [← stringsContains_iff_mem]; simp

/-- An identifier contains a `"/"` exactly when one of its three parts does. -/
theorem mem_sprintfDots_slash (a b c : GoString) :
    slash ∈ sprintfDots a b c ↔ slash ∈ a ∨ slash ∈ b ∨ slash ∈ c := by
  have hd : slash ≠ dot := by decide
  simp [sprintfDots, hd, or_assoc]

/-- No element of the choice list contains a `"/"`. -/
theorem choiceList_no_slash (list : List APIResourceList) (c : GoString)
    (hc : c ∈ choiceList list) : slash ∉ c := by
  rcases (mem_choiceList list c).mp hc with ⟨g, _, r, _, hs, rfl⟩
  have hgv := groupAndVersion_not_mem g.GroupVersion
  rw [mem_sprintfDots_slash]
  rintro (h | h | h)
  · exact (stringsContains_eq_false _ _).mp hs h
  · exact hgv.2 h
  · exact hgv.1 h

/-- The split of `g/v`. -/
theorem stringsSplit_group_version (g v : GoString) (hg : slash ∉ g) (hv : slash ∉ v) :
    stringsSplit (g ++ lit "/" ++ v) slash = [g, v] := by
  have h : lit "/" = [slash] := by decide
  rw [h, List.append_assoc, List.singleton_append, stringsSplit_append g v slash hg,
    stringsSplit_of_not_mem v slash hv]

/-- With two or more `"/"` in the group-version the `switch` takes its
`default` case: group and version stay empty. -/
theorem groupAndVersion_default (s : GoString) (h : 2 ≤ stringsCount s slash) :
    groupAndVersion (stringsSplit s slash) = ([], []) := by
  have hl := stringsSplit_length s slash
  generalize stringsSplit s slash = ps at hl
  match ps, hl with
  | [], _ => rfl
  | [_], hl => simp at hl; omega
  | [_, _], hl => simp at hl; omega
  | _ :: _ :: _ :: _, _ => rfl

/-! ## Lemmas on the run of `main` -/

/-- An identifier has at least two `"."`. -/
theorem stringsCount_sprintfDots (a b c : GoString) : 2 ≤ stringsCount (sprintfDots a b c) dot := by
  unfold sprintfDots
  simp only [stringsCount_append]
  have : stringsCount [dot] dot = 1 := by decide
  omega

theorem ParseResourceArg_isSome (arg : GoString) (h : 2 ≤ stringsCount arg dot) :
    ∃ gvr, ParseResourceArg arg = some gvr := by
  unfold ParseResourceArg
  rw [if_pos h]
  exact ⟨_, rfl⟩

theorem ParseResourceArg_eq_none (arg : GoString) (h : stringsCount arg dot < 2) :
    ParseResourceArg arg = none := by
  unfold ParseResourceArg
  rw [if_neg (by omega)]

/-- The events of `watch` for a target that parses. -/
theorem watch_of_some (w : World) (target : GoString) (gvr : GroupVersionResource)
    (h : ParseResourceArg target = some gvr) :
    watch w target =
      Event.newForConfig ::
      (if w.dynamicClientErr then [Event.logError (lit "unable to build K8S client")] else []) ++
      [Event.newInformerFactory, Event.parseResourceArg target, Event.forResource gvr,
        Event.addEventHandler, Event.setupSignalHandler, Event.run] := by
  simp [watch, h]

/-- The events of `watch` for a target that does not parse. -/
theorem watch_of_none (w : World) (target : GoString) (h : ParseResourceArg target = none) :
    watch w target =
      Event.newForConfig ::
      (if w.dynamicClientErr then [Event.logError (lit "unable to build K8S client")] else []) ++
      [Event.newInformerFactory, Event.parseResourceArg target, Event.nilDereference] := by
  simp [watch, h]

/-- The discovery loop logs errors only. -/
theorem discoveryLoop_snd (list : List APIResourceList) :
    ∀ e ∈ (discoveryLoop list).2, ∃ msg, e = Event.logError msg := by
  have aux : ∀ (l : List APIResourceList) (st : List GoString × List Event),
      (∀ e ∈ st.2, ∃ msg, e = Event.logError msg) →
      ∀ e ∈ (l.foldl
        (fun st group =>
          let split := stringsSplit group.GroupVersion slash
          let gv := groupAndVersion split
          (resourceLoop gv.2 gv.1 st.1 group.APIResources,
            st.2 ++ switchLog split group.GroupVersion)) st).2,
        ∃ msg, e = Event.logError msg := by
    intro l
    induction l with
    | nil => intro st h; simpa using h
    | cons g gs ih =>
      intro st h
      rw [List.foldl_cons]
      apply ih
      intro e he
      simp only [List.mem_append] at he
      rcases he with he | he
      · exact h e he
      · unfold switchLog at he
        split at he
        · simp at he
        · simp at he
        · simp only [List.mem_singleton] at he
          exact ⟨_, he⟩
  exact aux list ([], []) (by simp)

/-- The events of `watch` are those of lines 86 to 104. -/
theorem mem_watch (w : World) (target : GoString) (e : Event) (h : e ∈ watch w target) :
    e = Event.newForConfig ∨ e = Event.logError (lit "unable to build K8S client") ∨
    e = Event.newInformerFactory ∨ e = Event.parseResourceArg target ∨
    e = Event.nilDereference ∨ (∃ gvr, e = Event.forResource gvr) ∨
    e = Event.addEventHandler ∨ e = Event.setupSignalHandler ∨ e = Event.run := by
  unfold watch at h
  cases hp : ParseResourceArg target with
  | none =>
    rw [hp] at h
    by_cases hd : w.dynamicClientErr = true
    · simp [hd] at h
      rcases h with h | h | h | h | h <;> simp [h]
    · simp [hd] at h
      rcases h with h | h | h | h <;> simp [h]
  | some gvr =>
    rw [hp] at h
    by_cases hd : w.dynamicClientErr = true
    · simp [hd] at h
      rcases h with h | h | h | h | h | h | h | h <;> simp [h]
    · simp [hd] at h
      rcases h with h | h | h | h | h | h | h <;> simp [h]

/-- The run when loading the connection configuration fails. -/
theorem main_of_buildConfigErr (w : World) (h : w.buildConfigErr = true) :
    main w =
      [Event.buildConfigFromFlags, Event.logError (lit "unable to build K8S RestConfig")] := by
  simp [main, h]

/-- The run when the resource is given by the environment. -/
theorem main_of_preset (w : World) (h : w.buildConfigErr = false)
    (ht : w.KUBEWATCHER_RESOURCE ≠ []) :
    main w = Event.buildConfigFromFlags :: watch w w.KUBEWATCHER_RESOURCE := by
  simp [main, h, ht]

/-- The run when the discovery client cannot be built. -/
theorem main_of_discoveryClientErr (w : World) (h : w.buildConfigErr = false)
    (ht : w.KUBEWATCHER_RESOURCE = []) (hd : w.discoveryClientErr = true) :
    main w =
      [Event.buildConfigFromFlags, Event.newDiscoveryClientForConfig,
        Event.logError (lit "unable to build K8S discovery client")] := by
  simp [main, h, ht, hd]

/-- The run when discovery returns an empty list. -/
theorem main_of_empty_list (w : World) (h : w.buildConfigErr = false)
    (ht : w.KUBEWATCHER_RESOURCE = []) (hd : w.discoveryClientErr = false)
    (hl : w.list = []) :
    main w =
      [Event.buildConfigFromFlags, Event.newDiscoveryClientForConfig,
        Event.serverGroupsAndResources] ++
      (if w.discoveryErr then [Event.logError (lit "error discovering APIs")] else []) ++
      [Event.logInfo (lit "no API resources detected")] := by
  simp [main, h, ht, hd, hl]

/-- The run when discovery returns a list that is not empty and the selection
fails. -/
theorem main_of_selection_err (w : World) (h : w.buildConfigErr = false)
    (ht : w.KUBEWATCHER_RESOURCE = []) (hd : w.discoveryClientErr = false)
    (hl : w.list ≠ []) (ha : w.askOne (choiceList w.list) = none) :
    main w =
      beforePrompt w ++
      [Event.askOne (choiceList w.list), Event.logError (lit "error choosing resource")] := by
  unfold choiceList at ha
  simp [main, h, ht, hd, hl, choiceList, beforePrompt, ha]

/-- The run when discovery returns a list that is not empty and a resource is
selected. -/
theorem main_of_selection (w : World) (h : w.buildConfigErr = false)
    (ht : w.KUBEWATCHER_RESOURCE = []) (hd : w.discoveryClientErr = false)
    (hl : w.list ≠ []) (target : GoString) (ha : w.askOne (choiceList w.list) = some target) :
    main w = beforePrompt w ++ Event.askOne (choiceList w.list) :: watch w target := by
  unfold choiceList at ha
  simp [main, h, ht, hd, hl, choiceList, beforePrompt, ha]

/-- No nil dereference in `watch` for a target that parses. -/
theorem nilDereference_not_mem_watch (w : World) (target : GoString)
    (gvr : GroupVersionResource) (h : ParseResourceArg target = some gvr) :
    Event.nilDereference ∉ watch w target := by
  rw [watch_of_some w target gvr h]
  by_cases hd : w.dynamicClientErr = true <;> simp [hd]

/-- No nil dereference before the prompt. -/
theorem nilDereference_not_mem_beforePrompt (w : World) :
    Event.nilDereference ∉ beforePrompt w := by
  unfold beforePrompt
  intro hmem
  simp only [List.mem_append] at hmem
  rcases hmem with (hmem | hmem) | hmem
  · simp at hmem
  · by_cases hd : w.discoveryErr = true <;> simp [hd] at hmem
  · rcases discoveryLoop_snd w.list _ hmem with ⟨_, h⟩
    cases h

/-! ## The claims -/

/-- C1. When the markers of the two colours contain no line break, the output
of `colorizeDiff` splits on `"\n"` into as many lines as the input, and the
line at every index is the input line at that index: wrapped in the green
marker when it begins with `"+"`, wrapped in the red marker when it begins
with `"-"`, and unchanged otherwise. -/
theorem colorizeDiff_lines (au : Aurora) (d : GoString)
    (hg1 : newline ∉ au.Green.start) (hg2 : newline ∉ au.Green.stop)
    (hr1 : newline ∉ au.Red.start) (hr2 : newline ∉ au.Red.stop) :
    (stringsSplit (colorizeDiff au d) newline).length = (stringsSplit d newline).length ∧
    ∀ (i : Nat) (line : GoString), (stringsSplit d newline)[i]? = some line →
      (stringsHasPrefix line (lit "+") = true →
        (stringsSplit (colorizeDiff au d) newline)[i]? =
          some (au.Green.start ++ line ++ au.Green.stop)) ∧
      (stringsHasPrefix line (lit "-") = true →
        (stringsSplit (colorizeDiff au d) newline)[i]? =
          some (au.Red.start ++ line ++ au.Red.stop)) ∧
      (stringsHasPrefix line (lit "+") = false → stringsHasPrefix line (lit "-") = false →
        (stringsSplit (colorizeDiff au d) newline)[i]? = some line) := by
  rw [stringsSplit_colorizeDiff au d hg1 hg2 hr1 hr2]
  refine ⟨by simp, ?_⟩
  intro i line hi
  have hget : ((stringsSplit d newline).map (colorizeLine au))[i]? =
      some (colorizeLine au line) := by
    rw [List.getElem?_map, hi]; rfl
  rw [hget]
  refine ⟨?_, ?_, ?_⟩
  · intro hp
    simp [colorizeLine, hp, Style.render]
  · intro hm
    have hp : stringsHasPrefix line (lit "+") = false := by
      cases line with
      | nil => rfl
      | cons c cs =>
        have h1 : lit "+" = [43] := by decide
        have h2 : lit "-" = [45] := by decide
        rw [h2] at hm
        rw [h1]
        simp only [stringsHasPrefix, Bool.and_true, decide_eq_true_eq] at hm ⊢
        subst hm
        decide
    simp [colorizeLine, hp, hm, Style.render]
  · intro hp hm
    simp [colorizeLine, hp, hm]

/-- The hypotheses of C1 hold for the ANSI markers, and its conclusion at the
diff `"  same\n+added\n-removed\n"`. -/
theorem colorizeDiff_lines_witness :
    (newline ∉ ansi.Green.start ∧ newline ∉ ansi.Green.stop ∧
      newline ∉ ansi.Red.start ∧ newline ∉ ansi.Red.stop) ∧
    (stringsSplit (colorizeDiff ansi (lit "  same\n+added\n-removed\n")) newline).length = 4 ∧
    (stringsSplit (colorizeDiff ansi (lit "  same\n+added\n-removed\n")) newline)[1]? =
      some (ansi.Green.start ++ lit "+added" ++ ansi.Green.stop) :=
  have h := colorizeDiff_lines ansi (lit "  same\n+added\n-removed\n")
    (by decide) (by decide) (by decide) (by decide)
  ⟨by decide, h.1.trans (by decide), (h.2 1 (lit "+added") (by decide)).1 (by decide)⟩

/-- C2. The choice list is sorted in non-decreasing byte-wise order, it contains
no identifier made from a resource name with a `"/"` (whatever version and
group it is combined with), and none of its elements contains a `"/"`. -/
theorem choiceList_sorted_without_subresources (list : List APIResourceList) :
    StringsSorted (choiceList list) ∧
    (∀ group ∈ list, ∀ r ∈ group.APIResources, stringsContains r.Name slash = true →
      ∀ v g : GoString, sprintfDots r.Name v g ∉ choiceList list) ∧
    (∀ c ∈ choiceList list, stringsContains c slash = false) := by
  refine ⟨sortStrings_sorted _, ?_, ?_⟩
  · intro group _ r _ hs v g hmem
    have := choiceList_no_slash list _ hmem
    rw [mem_sprintfDots_slash] at this
    exact this (Or.inl ((stringsContains_iff_mem _ _).mp hs))
  · intro c hc
    exact (stringsContains_eq_false _ _).mpr (choiceList_no_slash list c hc)

/-- C2 at the example list: the list is sorted and the sub-resource
`deployments/status` of `apps/v1` is not in it. -/
theorem choiceList_sorted_without_subresources_witness :
    choiceList exampleList = [lit "deployments.v1.apps", lit "pods.v1.", lit "x.."] ∧
    StringsSorted (choiceList exampleList) ∧
    lit "deployments/status.v1.apps" ∉ choiceList exampleList :=
  have h := choiceList_sorted_without_subresources exampleList
  ⟨by decide, h.1,
    h.2.1 ⟨lit "apps/v1", [⟨lit "deployments"⟩, ⟨lit "deployments/status"⟩]⟩ (by decide)
      ⟨lit "deployments/status"⟩ (by decide) (by decide) (lit "v1") (lit "apps")⟩

/-- C3. For a resource name without `"/"` of a discovered group: when the
group-version is `g/v` with exactly one `"/"`, the choice list contains
`name.v.g`; when the group-version is `v` without `"/"`, it contains `name.v.`
with an empty group. In particular `apps/v1` with `deployments` yields
`deployments.v1.apps`. -/
theorem choiceList_contains_identifier (list : List APIResourceList)
    (group : APIResourceList) (r : APIResource)
    (hgroup : group ∈ list) (hr : r ∈ group.APIResources)
    (hname : stringsContains r.Name slash = false) :
    (∀ g v : GoString, stringsContains g slash = false → stringsContains v slash = false →
      group.GroupVersion = g ++ lit "/" ++ v →
      r.Name ++ lit "." ++ v ++ lit "." ++ g ∈ choiceList list) ∧
    (stringsContains group.GroupVersion slash = false →
      r.Name ++ lit "." ++ group.GroupVersion ++ lit "." ∈ choiceList list) ∧
    (group.GroupVersion = lit "apps/v1" → r.Name = lit "deployments" →
      lit "deployments.v1.apps" ∈ choiceList list) := by
  have hdot : lit "." = [dot] := by decide
  have hmem : sprintfDots r.Name
      (groupAndVersion (stringsSplit group.GroupVersion slash)).2
      (groupAndVersion (stringsSplit group.GroupVersion slash)).1 ∈ choiceList list :=
    (mem_choiceList list _).mpr ⟨group, hgroup, r, hr, hname, rfl⟩
  have two : ∀ g v : GoString, stringsContains g slash = false →
      stringsContains v slash = false → group.GroupVersion = g ++ lit "/" ++ v →
      r.Name ++ lit "." ++ v ++ lit "." ++ g ∈ choiceList list := by
    intro g v hg hv hgv
    rw [hgv, stringsSplit_group_version g v ((stringsContains_eq_false _ _).mp hg)
      ((stringsContains_eq_false _ _).mp hv)] at hmem
    rw [hdot]
    exact hmem
  refine ⟨two, ?_, ?_⟩
  · intro hgv
    rw [stringsSplit_of_not_mem _ slash ((stringsContains_eq_false _ _).mp hgv)] at hmem
    rw [hdot]
    simpa [sprintfDots, groupAndVersion] using hmem
  · intro hgv hn
    have h := two (lit "apps") (lit "v1") (by decide) (by decide) (by rw [hgv]; decide)
    rw [hn] at h
    have e : lit "deployments" ++ lit "." ++ lit "v1" ++ lit "." ++ lit "apps" =
        lit "deployments.v1.apps" := by decide
    rw [e] at h
    exact h

/-- C3 at the example list: `deployments.v1.apps` and `pods.v1.` are in the
choice list. -/
theorem choiceList_contains_identifier_witness :
    lit "deployments.v1.apps" ∈ choiceList exampleList ∧
    lit "pods.v1." ∈ choiceList exampleList :=
  ⟨(choiceList_contains_identifier exampleList
      ⟨lit "apps/v1", [⟨lit "deployments"⟩, ⟨lit "deployments/status"⟩]⟩ ⟨lit "deployments"⟩
      (by decide) (by decide) (by decide)).2.2 rfl rfl,
   (choiceList_contains_identifier exampleList
      ⟨lit "v1", [⟨lit "pods"⟩]⟩ ⟨lit "pods"⟩
      (by decide) (by decide) (by decide)).2.1 (by decide)⟩

/-- C4. The diff `"  same\n+added\n-removed\n"` is rendered as three lines, each
ended by a line break: `"  same"` unmarked, `"+added"` in the green marker and
`"-removed"` in the red marker. The four pieces of the input between the
line breaks (the last one empty) are coloured one by one. -/
theorem colorizeDiff_example (au : Aurora) :
    colorizeDiff au (lit "  same\n+added\n-removed\n") =
      lit "  same" ++ lit "\n" ++
      (au.Green.start ++ lit "+added" ++ au.Green.stop) ++ lit "\n" ++
      (au.Red.start ++ lit "-removed" ++ au.Red.stop) ++ lit "\n" ∧
    (stringsSplit (lit "  same\n+added\n-removed\n") newline).map (colorizeLine au) =
      [lit "  same", au.Green.start ++ lit "+added" ++ au.Green.stop,
        au.Red.start ++ lit "-removed" ++ au.Red.stop, lit ""] := by
  have hs : stringsSplit (lit "  same\n+added\n-removed\n") newline =
      [lit "  same", lit "+added", lit "-removed", lit ""] := by decide
  have h1 : colorizeLine au (lit "  same") = lit "  same" := by
    have a : stringsHasPrefix (lit "  same") (lit "+") = false := by decide
    have b : stringsHasPrefix (lit "  same") (lit "-") = false := by decide
    simp [colorizeLine, a, b]
  have h2 : colorizeLine au (lit "+added") = au.Green.start ++ lit "+added" ++ au.Green.stop := by
    have a : stringsHasPrefix (lit "+added") (lit "+") = true := by decide
    simp [colorizeLine, a, Style.render]
  have h3 : colorizeLine au (lit "-removed") =
      au.Red.start ++ lit "-removed" ++ au.Red.stop := by
    have a : stringsHasPrefix (lit "-removed") (lit "+") = false := by decide
    have b : stringsHasPrefix (lit "-removed") (lit "-") = true := by decide
    simp [colorizeLine, a, b, Style.render]
  have h4 : colorizeLine au (lit "") = lit "" := by
    have a : stringsHasPrefix (lit "") (lit "+") = false := by decide
    have b : stringsHasPrefix (lit "") (lit "-") = false := by decide
    simp [colorizeLine, a, b]
  have hmap : (stringsSplit (lit "  same\n+added\n-removed\n") newline).map (colorizeLine au) =
      [lit "  same", au.Green.start ++ lit "+added" ++ au.Green.stop,
        au.Red.start ++ lit "-removed" ++ au.Red.stop, lit ""] := by
    rw [hs]
    simp only [List.map_cons, List.map_nil, h1, h2, h3, h4]
  refine ⟨?_, hmap⟩
  rw [colorizeDiff_eq, hmap]
  have hnl : lit "\n" = [newline] := by decide
  have he : lit "" = [] := by decide
  rw [hnl, he]
  simp [stringsJoin]

/-- C5, as stated, fails: in a run where discovery reports an error and the
construction of the dynamic client reports an error, both errors are logged
and the run goes on after each of them, to the prompt and to the watch loop. -/
theorem main_continues_after_errors :
    failingWorld.discoveryErr = true ∧ failingWorld.dynamicClientErr = true ∧
    (main failingWorld).getLast? = some Event.run ∧
    main failingWorld =
      [Event.buildConfigFromFlags, Event.newDiscoveryClientForConfig,
        Event.serverGroupsAndResources,
        Event.logError (lit "error discovering APIs"),
        Event.askOne [lit "deployments.v1.apps"],
        Event.newForConfig,
        Event.logError (lit "unable to build K8S client"),
        Event.newInformerFactory,
        Event.parseResourceArg (lit "deployments.v1.apps"),
        Event.forResource
          { Group := lit "apps", Version := lit "v1", Resource := lit "deployments" },
        Event.addEventHandler, Event.setupSignalHandler, Event.run] := by
  decide

/-- C5, amended. A failure to load the connection configuration, a failure to
build the discovery client, an empty discovery result and a failed selection
are each logged and end the run at once: the log entry is the last event. An
error of discovery is logged and the run goes on with the list returned, to
the prompt when that list is not empty. -/
theorem main_failures (w : World) :
    (w.buildConfigErr = true →
      main w =
        [Event.buildConfigFromFlags,
          Event.logError (lit "unable to build K8S RestConfig")]) ∧
    (w.buildConfigErr = false → w.KUBEWATCHER_RESOURCE = [] → w.discoveryClientErr = true →
      main w =
        [Event.buildConfigFromFlags, Event.newDiscoveryClientForConfig,
          Event.logError (lit "unable to build K8S discovery client")]) ∧
    (w.buildConfigErr = false → w.KUBEWATCHER_RESOURCE = [] → w.discoveryClientErr = false →
      w.list = [] →
      main w =
        [Event.buildConfigFromFlags, Event.newDiscoveryClientForConfig,
          Event.serverGroupsAndResources] ++
        (if w.discoveryErr then [Event.logError (lit "error discovering APIs")] else []) ++
        [Event.logInfo (lit "no API resources detected")]) ∧
    (w.buildConfigErr = false → w.KUBEWATCHER_RESOURCE = [] → w.discoveryClientErr = false →
      w.list ≠ [] → w.askOne (choiceList w.list) = none →
      main w =
        [Event.buildConfigFromFlags, Event.newDiscoveryClientForConfig,
          Event.serverGroupsAndResources] ++
        (if w.discoveryErr then [Event.logError (lit "error discovering APIs")] else []) ++
        (discoveryLoop w.list).2 ++
        [Event.askOne (choiceList w.list),
          Event.logError (lit "error choosing resource")]) ∧
    (w.buildConfigErr = false → w.KUBEWATCHER_RESOURCE = [] → w.discoveryClientErr = false →
      w.list ≠ [] → w.discoveryErr = true →
      ∃ rest, main w =
        [Event.buildConfigFromFlags, Event.newDiscoveryClientForConfig,
          Event.serverGroupsAndResources,
          Event.logError (lit "error discovering APIs")] ++
        (discoveryLoop w.list).2 ++ Event.askOne (choiceList w.list) :: rest) := by
  refine ⟨main_of_buildConfigErr w, main_of_discoveryClientErr w, main_of_empty_list w, ?_, ?_⟩
  · intro hb ht hd hl ha
    rw [main_of_selection_err w hb ht hd hl ha]
    rfl
  · intro hb ht hd hl he
    cases ha : w.askOne (choiceList w.list) with
    | none =>
      refine ⟨[Event.logError (lit "error choosing resource")], ?_⟩
      rw [main_of_selection_err w hb ht hd hl ha]
      simp [beforePrompt, he]
    | some target =>
      refine ⟨watch w target, ?_⟩
      rw [main_of_selection w hb ht hd hl target ha]
      simp [beforePrompt, he]

/-- C5, amended, at five worlds, one for each of its cases. -/
theorem main_failures_witness :
    main { promptWorld with buildConfigErr := true } =
      [Event.buildConfigFromFlags,
        Event.logError (lit "unable to build K8S RestConfig")] ∧
    main { promptWorld with discoveryClientErr := true } =
      [Event.buildConfigFromFlags, Event.newDiscoveryClientForConfig,
        Event.logError (lit "unable to build K8S discovery client")] ∧
    main { promptWorld with list := [] } =
      [Event.buildConfigFromFlags, Event.newDiscoveryClientForConfig,
        Event.serverGroupsAndResources,
        Event.logInfo (lit "no API resources detected")] ∧
    main { failingWorld with askOne := fun _ => none } =
      [Event.buildConfigFromFlags, Event.newDiscoveryClientForConfig,
        Event.serverGroupsAndResources,
        Event.logError (lit "error discovering APIs"),
        Event.askOne [lit "deployments.v1.apps"],
        Event.logError (lit "error choosing resource")] ∧
    (∃ rest, main failingWorld =
      [Event.buildConfigFromFlags, Event.newDiscoveryClientForConfig,
        Event.serverGroupsAndResources,
        Event.logError (lit "error discovering APIs"),
        Event.askOne [lit "deployments.v1.apps"]] ++ rest) :=
  ⟨(main_failures { promptWorld with buildConfigErr := true }).1 rfl,
    (main_failures { promptWorld with discoveryClientErr := true }).2.1 rfl (by decide) rfl,
    (main_failures { promptWorld with list := [] }).2.2.1 rfl (by decide) rfl rfl,
    ((main_failures { failingWorld with askOne := fun _ => none }).2.2.2.1
      rfl (by decide) rfl (by decide) rfl).trans (by decide),
    ((main_failures failingWorld).2.2.2.2 rfl (by decide) rfl (by decide) rfl).imp
      (fun _ h => h.trans rfl)⟩

/-- C6. In a run with a non-empty `KUBEWATCHER_RESOURCE` there is no discovery
call and no prompt, the resource-argument parser is called with that value
only, and it is called with it whenever the connection configuration loads.
The prompt is reached only in runs where the value is empty. -/
theorem main_preset_resource (w : World) :
    (w.KUBEWATCHER_RESOURCE ≠ [] →
      Event.newDiscoveryClientForConfig ∉ main w ∧
      Event.serverGroupsAndResources ∉ main w ∧
      (∀ options, Event.askOne options ∉ main w) ∧
      (∀ arg, Event.parseResourceArg arg ∈ main w → arg = w.KUBEWATCHER_RESOURCE) ∧
      (w.buildConfigErr = false → Event.parseResourceArg w.KUBEWATCHER_RESOURCE ∈ main w)) ∧
    (∀ options, Event.askOne options ∈ main w → w.KUBEWATCHER_RESOURCE = []) := by
  have key : w.KUBEWATCHER_RESOURCE ≠ [] → ∀ e ∈ main w,
      e = Event.buildConfigFromFlags ∨
      e = Event.logError (lit "unable to build K8S RestConfig") ∨
      e ∈ watch w w.KUBEWATCHER_RESOURCE := by
    intro ht e he
    by_cases hb : w.buildConfigErr = true
    · rw [main_of_buildConfigErr w hb] at he
      simp at he
      rcases he with he | he <;> simp [he]
    · rw [main_of_preset w (by simpa using hb) ht] at he
      rcases List.mem_cons.mp he with he | he
      · exact Or.inl he
      · exact Or.inr (Or.inr he)
  have hw := mem_watch w w.KUBEWATCHER_RESOURCE
  have noPrompt : w.KUBEWATCHER_RESOURCE ≠ [] → ∀ options, Event.askOne options ∉ main w := by
    intro ht options hmem
    rcases key ht _ hmem with h | h | h
    · cases h
    · cases h
    · rcases hw _ h with h | h | h | h | h | ⟨_, h⟩ | h | h | h <;> cases h
  refine ⟨fun ht => ⟨?_, ?_, noPrompt ht, ?_, ?_⟩, ?_⟩
  · intro hmem
    rcases key ht _ hmem with h | h | h
    · cases h
    · cases h
    · rcases hw _ h with h | h | h | h | h | ⟨_, h⟩ | h | h | h <;> cases h
  · intro hmem
    rcases key ht _ hmem with h | h | h
    · cases h
    · cases h
    · rcases hw _ h with h | h | h | h | h | ⟨_, h⟩ | h | h | h <;> cases h
  · intro arg hmem
    rcases key ht _ hmem with h | h | h
    · cases h
    · cases h
    · rcases hw _ h with h | h | h | h | h | ⟨_, h⟩ | h | h | h <;> cases h
      rfl
  · intro hb
    rw [main_of_preset w hb ht]
    unfold watch
    simp
  · intro options hmem
    by_contra ht
    exact noPrompt ht options hmem

/-- C6 at the world with `KUBEWATCHER_RESOURCE` set to `deployments.v1.apps`: no
prompt, and the parser is called with that value. -/
theorem main_preset_resource_witness :
    presetWorld.KUBEWATCHER_RESOURCE ≠ [] ∧
    (∀ options, Event.askOne options ∉ main presetWorld) ∧
    Event.parseResourceArg (lit "deployments.v1.apps") ∈ main presetWorld ∧
    main presetWorld =
      [Event.buildConfigFromFlags, Event.newForConfig, Event.newInformerFactory,
        Event.parseResourceArg (lit "deployments.v1.apps"),
        Event.forResource
          { Group := lit "apps", Version := lit "v1", Resource := lit "deployments" },
        Event.addEventHandler, Event.setupSignalHandler, Event.run] :=
  have h := (main_preset_resource presetWorld).1 (by decide)
  ⟨by decide, h.2.2.1, h.2.2.2.2 rfl, by decide⟩

/-- C7. The handlers of creations and deletions write nothing; the handler of an
update writes `colorizeDiff` of the structural diff of the old and the new
object, followed by a line break. Standard output after a sequence of
notifications is thus one such block for each update, in order. -/
theorem handlers_output {Obj : Type} (au : Aurora) (cmpDiff : Obj → Obj → GoString)
    (obj oldObj newObj : Obj) (ns : List (Notification Obj)) :
    AddFunc obj = [] ∧ DeleteFunc obj = [] ∧
    UpdateFunc au cmpDiff oldObj newObj =
      colorizeDiff au (cmpDiff oldObj newObj) ++ lit "\n" ∧
    stdoutAfter au cmpDiff ns =
      (ns.filterMap (fun n =>
        match n with
        | .update o n => some (o, n)
        | _ => none)).flatMap
        (fun p => colorizeDiff au (cmpDiff p.1 p.2) ++ lit "\n") := by
  have hnl : lit "\n" = [newline] := by decide
  refine ⟨rfl, rfl, ?_, ?_⟩
  · rw [hnl]; rfl
  · rw [hnl]
    induction ns with
    | nil => rfl
    | cons n ns ih =>
      cases n with
      | add o =>
        simp only [stdoutAfter, List.flatMap_cons, handle, AddFunc, List.nil_append,
          List.filterMap_cons] at ih ⊢
        exact ih
      | delete o =>
        simp only [stdoutAfter, List.flatMap_cons, handle, DeleteFunc, List.nil_append,
          List.filterMap_cons] at ih ⊢
        exact ih
      | update o n =>
        simp only [stdoutAfter, List.flatMap_cons, handle, UpdateFunc, fmtPrintln,
          List.filterMap_cons] at ih ⊢
        rw [ih]

/-- C8. A diff none of whose lines begins with `"+"` or `"-"` is returned
unchanged; in particular the empty diff is. -/
theorem colorizeDiff_unmarked (au : Aurora) :
    (∀ d : GoString,
      (∀ line ∈ stringsSplit d newline,
        stringsHasPrefix line (lit "+") = false ∧ stringsHasPrefix line (lit "-") = false) →
      colorizeDiff au d = d) ∧
    colorizeDiff au (lit "") = lit "" := by
  have key : ∀ d : GoString,
      (∀ line ∈ stringsSplit d newline,
        stringsHasPrefix line (lit "+") = false ∧ stringsHasPrefix line (lit "-") = false) →
      colorizeDiff au d = d := by
    intro d h
    rw [colorizeDiff_eq]
    have hmap : (stringsSplit d newline).map (colorizeLine au) = stringsSplit d newline := by
      conv_rhs => rw [← List.map_id (stringsSplit d newline)]
      apply List.map_congr_left
      intro line hl
      simp [colorizeLine, (h line hl).1, (h line hl).2]
    rw [hmap, stringsJoin_stringsSplit]
  refine ⟨key, key _ ?_⟩
  decide

/-- The hypothesis of C8 holds for the diff `"  a\n  b"`, which is returned
unchanged. -/
theorem colorizeDiff_unmarked_witness :
    (∀ line ∈ stringsSplit (lit "  a\n  b") newline,
      stringsHasPrefix line (lit "+") = false ∧ stringsHasPrefix line (lit "-") = false) ∧
    colorizeDiff ansi (lit "  a\n  b") = lit "  a\n  b" :=
  ⟨by decide, (colorizeDiff_unmarked ansi).1 (lit "  a\n  b") (by decide)⟩

/-- C9. The choice list is a permutation of the identifiers of all the pairs of
a group and one of its resources whose name has no `"/"`: its length is the
number of these pairs, and a group whose group-version has two or more `"/"`
contributes `name..` (empty version, empty group) for each such resource. -/
theorem choiceList_perm_identifiers (list : List APIResourceList) :
    (choiceList list).Perm (list.flatMap groupIdentifiers) ∧
    (choiceList list).length =
      (list.map (fun group =>
        (group.APIResources.filter (fun r => !stringsContains r.Name slash)).length)).sum ∧
    (∀ group ∈ list, 2 ≤ stringsCount group.GroupVersion slash →
      groupIdentifiers group =
        (group.APIResources.filter (fun r => !stringsContains r.Name slash)).map
          (fun r => r.Name ++ lit "..") ∧
      ∀ r ∈ group.APIResources, stringsContains r.Name slash = false →
        r.Name ++ lit ".." ∈ choiceList list) := by
  have hp := choiceList_perm list
  refine ⟨hp, ?_, ?_⟩
  · rw [hp.length_eq]
    induction list with
    | nil => simp
    | cons g gs ih =>
      simp only [List.flatMap_cons, List.length_append, List.map_cons, List.sum_cons]
      rw [ih (choiceList_perm gs)]
      simp [groupIdentifiers]
  · intro group hg h2
    have hdd : lit ".." = [dot, dot] := by decide
    have hid : groupIdentifiers group =
        (group.APIResources.filter (fun r => !stringsContains r.Name slash)).map
          (fun r => r.Name ++ lit "..") := by
      unfold groupIdentifiers
      rw [groupAndVersion_default _ h2, hdd]
      simp [sprintfDots]
    refine ⟨hid, ?_⟩
    intro r hr hs
    rw [hp.mem_iff, List.mem_flatMap]
    refine ⟨group, hg, ?_⟩
    rw [hid, List.mem_map]
    exact ⟨r, by simp [List.mem_filter, hr, hs], rfl⟩

/-- C9 at the example list: three identifiers for the three resources without
`"/"`, among them `x..` for the group-version `a/b/c`. -/
theorem choiceList_perm_identifiers_witness :
    (choiceList exampleList).length = 3 ∧ lit "x.." ∈ choiceList exampleList :=
  have h := choiceList_perm_identifiers exampleList
  ⟨h.2.1.trans (by decide),
    (h.2.2 ⟨lit "a/b/c", [⟨lit "x"⟩]⟩ (by decide) (by decide)).2 ⟨lit "x"⟩ (by decide)
      (by decide)⟩

/-- C10. Every identifier of the choice list has at least two `"."`, so the
resource-argument parser returns a group-version-resource for it, and a run
whose target is selected from the list dereferences no nil pointer. For a
target with fewer than two `"."`, given by the environment, the parser
returns nil and the run ends in the dereference of it. -/
theorem choiceList_parses (w : World) :
    (∀ c ∈ choiceList w.list,
      2 ≤ stringsCount c dot ∧ ∃ gvr, ParseResourceArg c = some gvr) ∧
    (w.KUBEWATCHER_RESOURCE = [] →
      (∀ target, w.askOne (choiceList w.list) = some target → target ∈ choiceList w.list) →
      Event.nilDereference ∉ main w) ∧
    (w.buildConfigErr = false → w.KUBEWATCHER_RESOURCE ≠ [] →
      stringsCount w.KUBEWATCHER_RESOURCE dot < 2 →
      ParseResourceArg w.KUBEWATCHER_RESOURCE = none ∧
      main w =
        [Event.buildConfigFromFlags, Event.newForConfig] ++
        (if w.dynamicClientErr then [Event.logError (lit "unable to build K8S client")]
          else []) ++
        [Event.newInformerFactory, Event.parseResourceArg w.KUBEWATCHER_RESOURCE,
          Event.nilDereference]) := by
  have hchoice : ∀ c ∈ choiceList w.list,
      2 ≤ stringsCount c dot ∧ ∃ gvr, ParseResourceArg c = some gvr := by
    intro c hc
    rcases (mem_choiceList w.list c).mp hc with ⟨g, _, r, _, _, rfl⟩
    exact ⟨stringsCount_sprintfDots _ _ _, ParseResourceArg_isSome _ (stringsCount_sprintfDots _ _ _)⟩
  refine ⟨hchoice, ?_, ?_⟩
  · intro ht hsel hmem
    by_cases hb : w.buildConfigErr = true
    · rw [main_of_buildConfigErr w hb] at hmem
      simp at hmem
    · have hb : w.buildConfigErr = false := by simpa using hb
      by_cases hd : w.discoveryClientErr = true
      · rw [main_of_discoveryClientErr w hb ht hd] at hmem
        simp at hmem
      · have hd : w.discoveryClientErr = false := by simpa using hd
        by_cases hl : w.list = []
        · rw [main_of_empty_list w hb ht hd hl] at hmem
          by_cases he : w.discoveryErr = true <;> simp [he] at hmem
        · cases ha : w.askOne (choiceList w.list) with
          | none =>
            rw [main_of_selection_err w hb ht hd hl ha, List.mem_append] at hmem
            rcases hmem with hmem | hmem
            · exact nilDereference_not_mem_beforePrompt w hmem
            · simp at hmem
          | some target =>
            rw [main_of_selection w hb ht hd hl target ha, List.mem_append] at hmem
            rcases hmem with hmem | hmem
            · exact nilDereference_not_mem_beforePrompt w hmem
            · rcases List.mem_cons.mp hmem with hmem | hmem
              · cases hmem
              · rcases (hchoice target (hsel target ha)).2 with ⟨gvr, hg⟩
                exact nilDereference_not_mem_watch w target gvr hg hmem
  · intro hb ht hc
    have hn := ParseResourceArg_eq_none _ hc
    refine ⟨hn, ?_⟩
    rw [main_of_preset w hb ht, watch_of_none w _ hn]
    simp

/-- C10 at two worlds: the run that selects the first option of the example
list has no nil dereference, and the run with `KUBEWATCHER_RESOURCE` set to
`pods` ends in one. -/
theorem choiceList_parses_witness :
    Event.nilDereference ∉ main promptWorld ∧
    main podsWorld =
      [Event.buildConfigFromFlags, Event.newForConfig, Event.newInformerFactory,
        Event.parseResourceArg (lit "pods"), Event.nilDereference] :=
  ⟨(choiceList_parses promptWorld).2.1 (by decide)
      (fun target h => by
        have e : promptWorld.askOne (choiceList promptWorld.list) =
            some (lit "deployments.v1.apps") := by decide
        rw [e] at h
        cases h
        decide),
    ((choiceList_parses podsWorld).2.2 (by decide) (by decide) (by decide)).2⟩

end Kubewatcher
